import Mathlib

/-!
Verification of the JSON expression codec in `txdav/dps/json.py`.

The Python module is a bidirectional codec between an in-memory
query-expression tree (`MatchExpression`, `ExistsExpression`,
`BooleanExpression`, `CompoundExpression`, from `twext.who.expression`) and a
JSON wire representation.  This file shallowly embeds the module: JSON values
and expression trees become mutual inductives, each Python function becomes a
Lean function of the same name, and each Python exception becomes a
constructor of the error type `Err`.

External collaborators (the `twext.who` enumerations, the directory service's
field-name resolver, and the `json` standard-library text primitives) are not
part of the repository source; they are modelled from the specification and
marked `Modelled from the spec:` in their doc comments.
-/

set_option linter.unusedVariables false

/-! A JSON value, as produced by parsing JSON text.  Numbers are modelled as
integers (the codec never produces numbers; the decoder only ever coerces
them to strings).  `JSONList` and `JSONObject` are unrolled list types so that
all traversals can be mutually structural. -/
mutual
inductive JSONValue where
  | str (s : String)
  | num (n : Int)
  | bool (b : Bool)
  | null
  | arr (elements : JSONList)
  | obj (members : JSONObject)
inductive JSONList where
  | nil
  | cons (head : JSONValue) (tail : JSONList)
inductive JSONObject where
  | nil
  | cons (key : String) (value : JSONValue) (tail : JSONObject)
end

/-- Errors raised by the codec.  Each constructor models one of the Python
exceptions the module can raise:
* `typeMismatch` — `TypeError("JSON expression must be a dict.")`;
* `missingField k` — `ValueError("... must have k key.")` for a required key;
* `unknownExpressionType t` — `NotImplementedError("Unknown expression type")`
  carrying the offending `type` value;
* `unknownMatchType j`, `unknownOperand j`, `unknownFieldName j`,
  `unknownFlag s` — a `lookupByName` that resolves nothing;
* `unsupportedType` — the encoder's final `raise TypeError` for an object that
  is none of the four expression classes;
* `arityError` — the `TypeError` Python raises when `expressionFromJSON`
  invokes a two-parameter leaf decoder (`matchExpressionFromJSON(service,
  json)` and friends) with only the `json` argument; the call fails before the
  decoder body runs;
* `attributeError` — `AttributeError` from calling a string method on a
  non-string (the flags decoder applies `.startswith` to its input);
* `malformedJSON` — text that does not parse as JSON. -/
inductive Err where
  | typeMismatch
  | missingField (key : String)
  | unknownExpressionType (jsonType : JSONValue)
  | unknownMatchType (json : JSONValue)
  | unknownOperand (json : JSONValue)
  | unknownFieldName (json : JSONValue)
  | unknownFlag (name : String)
  | unsupportedType
  | arityError
  | attributeError
  | malformedJSON

/-- Python `json[key]` / `json.get(key)` on a decoded JSON object: the value
at the first matching key, if any. -/
def JSONObject.lookup : JSONObject → String → Option JSONValue
  | .nil, _ => none
  | .cons k v t, key => if k = key then some v else t.lookup key

/-- Python `json.get(key, default)`. -/
def JSONObject.lookupD (o : JSONObject) (key : String) (dflt : JSONValue) : JSONValue :=
  (o.lookup key).getD dflt

/-- Append one member at the end of a JSON object (used only to state the
"decodes as if the key were present" default-value claims). -/
def JSONObject.snoc : JSONObject → String → JSONValue → JSONObject
  | .nil, k, v => .cons k v .nil
  | .cons k' v' t, k, v => .cons k' v' (t.snoc k v)

/-- The elements of a JSON array as a Lean list. -/
def JSONList.toList : JSONList → List JSONValue
  | .nil => []
  | .cons v t => v :: t.toList

/-- Modelled from the spec: a canonical field-name identifier held by decoded
expression trees ("the tree stores only the resolved field-name identifier");
`name` is its wire string, as read by the encoder (`expression.fieldName.name`). -/
structure FieldName where
  name : String
deriving DecidableEq

/-- Modelled from the spec: the `twext.who` match-type enumeration ("equals,
contains, starts-with, etc."), a fixed set of constants with one canonical
name each. -/
inductive MatchType where
  | equals
  | startsWith
  | endsWith
  | contains
deriving DecidableEq

/-- Modelled from the spec: the canonical name of each match type
(`matchType.name`). -/
def MatchType.name : MatchType → String
  | .equals => "equals"
  | .startsWith => "startsWith"
  | .endsWith => "endsWith"
  | .contains => "contains"

/-- Modelled from the spec: `MatchType.lookupByName` — the enumeration's
total-or-fails lookup.  Only the canonical name string of a constant
resolves; every other JSON value fails (`ValueError` in Python). -/
def MatchType.lookupByName : JSONValue → Except Err MatchType
  | .str "equals" => .ok .equals
  | .str "startsWith" => .ok .startsWith
  | .str "endsWith" => .ok .endsWith
  | .str "contains" => .ok .contains
  | j => .error (.unknownMatchType j)

/-- Modelled from the spec: the `twext.who` `MatchFlags` bit-flag set, with
the two flags `NOT` and `caseInsensitive`, combined by bitwise OR. -/
structure MatchFlags where
  NOT : Bool
  caseInsensitive : Bool
deriving DecidableEq

/-- Modelled from the spec: `MatchFlags.none`, the empty flag combination. -/
def MatchFlags.none : MatchFlags := ⟨false, false⟩

/-- Modelled from the spec: flag combination (`flags |= f`, bitwise OR). -/
def MatchFlags.union (a b : MatchFlags) : MatchFlags :=
  ⟨a.NOT || b.NOT, a.caseInsensitive || b.caseInsensitive⟩

/-- Modelled from the spec: the canonical name of a flag value, as read by the
encoder (`expression.flags.name`): a single flag is its bare name, a
combination is brace-wrapped and comma-separated, and the empty combination
is the two-character string of an opening and a closing brace. -/
def MatchFlags.name : MatchFlags → String
  | ⟨false, false⟩ => "{}"
  | ⟨true, false⟩ => "NOT"
  | ⟨false, true⟩ => "caseInsensitive"
  | ⟨true, true⟩ => "{NOT,caseInsensitive}"

/-- Modelled from the spec: `MatchFlags.lookupByName` — resolves the name of a
single flag constant; any other string fails with `UnknownFlag`. -/
def MatchFlags.lookupByName (s : String) : Except Err MatchFlags :=
  if s = "NOT" then .ok ⟨true, false⟩
  else if s = "caseInsensitive" then .ok ⟨false, true⟩
  else .error (.unknownFlag s)

/-- Modelled from the spec: the compound-expression operand enumeration
(`AND` / `OR`). -/
inductive Operand where
  | AND
  | OR
deriving DecidableEq

/-- Modelled from the spec: the canonical name of an operand (`operand.name`). -/
def Operand.name : Operand → String
  | .AND => "AND"
  | .OR => "OR"

/-- Modelled from the spec: `Operand.lookupByName` — only the canonical name
string of a constant resolves. -/
def Operand.lookupByName : JSONValue → Except Err Operand
  | .str "AND" => .ok .AND
  | .str "OR" => .ok .OR
  | j => .error (.unknownOperand j)

/-- Modelled from the spec: the directory-service collaborator, consumed by
the decoder only through `service.fieldName.lookupByName`, which maps a wire
field-name string to the backend's canonical field identifier and fails on
anything it does not know. -/
structure Service where
  fieldNameLookupByName : JSONValue → Except Err FieldName

/-! The expression tree of `twext.who.expression`, restricted to the four
variants the codec handles.  `ExpressionList` is an unrolled list so that all
traversals can be mutually structural. -/
mutual
inductive Expression where
  | MatchExpression (fieldName : FieldName) (fieldValue : String)
      (matchType : MatchType) (flags : MatchFlags)
  | ExistsExpression (fieldName : FieldName)
  | BooleanExpression (fieldName : FieldName)
  | CompoundExpression (expressions : ExpressionList) (operand : Operand)
inductive ExpressionList where
  | nil
  | cons (head : Expression) (tail : ExpressionList)
end

/-- The children of a compound expression as a Lean list. -/
def ExpressionList.toList : ExpressionList → List Expression
  | .nil => []
  | .cons e t => e :: t.toList

/-- `matchExpressionAsJSON`: the JSON object for a `MatchExpression`, with the
keys in the order of the source's `dict(...)` literal. -/
def matchExpressionAsJSON (fieldName : FieldName) (fieldValue : String)
    (matchType : MatchType) (flags : MatchFlags) : JSONValue :=
  .obj (.cons "type" (.str "MatchExpression")
    (.cons "field" (.str fieldName.name)
      (.cons "value" (.str fieldValue)
        (.cons "match" (.str matchType.name)
          (.cons "flags" (.str flags.name) .nil)))))

/-- `existsExpressionAsJSON`: the JSON object for an `ExistsExpression`. -/
def existsExpressionAsJSON (fieldName : FieldName) : JSONValue :=
  .obj (.cons "type" (.str "ExistsExpression")
    (.cons "field" (.str fieldName.name) .nil))

/-- `booleanExpressionAsJSON`: the JSON object for a `BooleanExpression`. -/
def booleanExpressionAsJSON (fieldName : FieldName) : JSONValue :=
  .obj (.cons "type" (.str "BooleanExpression")
    (.cons "field" (.str fieldName.name) .nil))

/-! `expressionAsJSON`: dispatch on the expression variant; the compound case
is the source's `compoundExpressionAsJSON`, encoding each child in order. -/
mutual
def expressionAsJSON : Expression → JSONValue
  | .MatchExpression f v m fl => matchExpressionAsJSON f v m fl
  | .ExistsExpression f => existsExpressionAsJSON f
  | .BooleanExpression f => booleanExpressionAsJSON f
  | .CompoundExpression es op =>
    .obj (.cons "type" (.str "CompoundExpression")
      (.cons "operand" (.str op.name)
        (.cons "expressions" (.arr (expressionListAsJSON es)) .nil)))
def expressionListAsJSON : ExpressionList → JSONList
  | .nil => .nil
  | .cons e t => .cons (expressionAsJSON e) (expressionListAsJSON t)
end

/-- The source's `expressionAsJSON` applied to an arbitrary Python object: the
`isinstance` chain handles the four expression classes, and any other object
(`none` here) reaches the final `raise TypeError("Unknown expression type")`. -/
def expressionAsJSONAny : Option Expression → Except Err JSONValue
  | some e => .ok (expressionAsJSON e)
  | none => .error .unsupportedType

/-- JSON string escaping as emitted by the text encoder.  Modelled from the
spec: the text primitives are external and assumed correct (§1); only the two
JSON-mandatory escapes that can collide with the string syntax (the quote and
the backslash) are modelled. -/
def escapeChars : List Char → List Char
  | [] => []
  | c :: cs =>
    if c = '"' then '\\' :: '"' :: escapeChars cs
    else if c = '\\' then '\\' :: '\\' :: escapeChars cs
    else c :: escapeChars cs

/-! Modelled from the spec: `json.dumps(obj, separators=(',', ':'))` as
invoked by `to_json_text` — JSON text with the item separator a bare comma
and the key separator a bare colon, no padding whitespace (§4.2). -/
mutual
def renderValue : JSONValue → List Char
  | .str s => '"' :: (escapeChars s.data ++ ['"'])
  | .num n => (toString n).data
  | .bool true => 't' :: 'r' :: 'u' :: 'e' :: []
  | .bool false => 'f' :: 'a' :: 'l' :: 's' :: 'e' :: []
  | .null => 'n' :: 'u' :: 'l' :: 'l' :: []
  | .arr l => '[' :: (renderList l ++ [']'])
  | .obj o => '{' :: (renderMembers o ++ ['}'])
def renderList : JSONList → List Char
  | .nil => []
  | .cons v .nil => renderValue v
  | .cons v (.cons w t) => renderValue v ++ ',' :: renderList (.cons w t)
def renderMembers : JSONObject → List Char
  | .nil => []
  | .cons k v .nil => '"' :: (escapeChars k.data ++ '"' :: ':' :: renderValue v)
  | .cons k v (.cons k' v' t) =>
    ('"' :: (escapeChars k.data ++ '"' :: ':' :: renderValue v)) ++
      ',' :: renderMembers (.cons k' v' t)
end

/-- `to_json_text`: serialize a JSON value to compact JSON text
(`dumps(obj, separators=(',', ':')).decode("UTF-8")`). -/
def to_json_text (obj : JSONValue) : String :=
  String.mk (renderValue obj)

/-- `expressionAsJSONText`: encode an expression and serialize it. -/
def expressionAsJSONText (expression : Expression) : String :=
  to_json_text (expressionAsJSON expression)

/-- Python `s.startswith(c)` for a one-character prefix, on the character
list of `s`. -/
def listStartsWith (c : Char) : List Char → Bool
  | [] => false
  | x :: _ => x = c

/-- Python `s.endswith(c)` for a one-character suffix, on the character list
of `s`. -/
def listEndsWith (c : Char) : List Char → Bool
  | [] => false
  | [x] => x = c
  | _ :: x :: xs => listEndsWith c (x :: xs)

/-- Python `s.split(",")`: split on every comma; the empty string yields one
empty component, and empty components are preserved. -/
def splitComma : List Char → List (List Char)
  | [] => [[]]
  | c :: rest =>
    if c = ',' then [] :: splitComma rest
    else
      match splitComma rest with
      | [] => [[c]]
      | g :: gs => (c :: g) :: gs

/-- The loop body of `matchFlagsFromJSON`'s composite branch:
`flags = MatchFlags.none; for flag in parts: flags |= lookupByName(flag)`,
failing at the first unresolvable name. -/
def orFlagsFrom (acc : MatchFlags) : List (List Char) → Except Err MatchFlags
  | [] => .ok acc
  | p :: ps =>
    match MatchFlags.lookupByName (String.mk p) with
    | .error e => .error e
    | .ok f => orFlagsFrom (acc.union f) ps

/-- The string-level body of `matchFlagsFromJSON`: the literal two-character
brace string decodes to the empty flags; a string starting with an opening
brace and ending with a closing brace has its interior (`json[1:-1]`) split
on commas and each component looked up and ORed together; any other string is
looked up directly as a single flag name. -/
def matchFlagsFromString (s : String) : Except Err MatchFlags :=
  if s = "{}" then .ok MatchFlags.none
  else if listStartsWith '{' s.data && listEndsWith '}' s.data then
    orFlagsFrom MatchFlags.none (splitComma ((s.data.drop 1).dropLast))
  else MatchFlags.lookupByName s

/-- `matchFlagsFromJSON`: in the source the comparison `json == "{}"` is
`False` for every non-string, after which `json.startswith` raises
`AttributeError`; a string input proceeds to the flags micro-grammar. -/
def matchFlagsFromJSON : JSONValue → Except Err MatchFlags
  | .str s => matchFlagsFromString s
  | _ => .error .attributeError

/-- `matchTypeFromJSON`: `MatchType.lookupByName(json)`. -/
def matchTypeFromJSON (json : JSONValue) : Except Err MatchType :=
  MatchType.lookupByName json

/-- The ASCII apostrophe (code 39), used by Python `repr` to quote strings;
built from its code point to keep the source free of quote characters. -/
def pyQuote : String := String.singleton (Char.ofNat 39)

/-! Python `unicode(...)` applied to a value decoded from JSON, and the
`repr` used for elements of collections.  Modelled from the spec: the
uniform `stringify` coercion of §9 — a string passes through, an integer
renders in decimal, booleans render as `True`/`False`, `None` renders as
`None`, and collections render via Python `repr` (string-quoting inside
`repr` is simplified: `repr` quote-escaping of special characters is not
modelled). -/
mutual
def stringify : JSONValue → String
  | .str s => s
  | .num n => toString n
  | .bool true => "True"
  | .bool false => "False"
  | .null => "None"
  | .arr l => "[" ++ pyReprList l ++ "]"
  | .obj o => "\x7b" ++ pyReprMembers o ++ "\x7d"
def pyRepr : JSONValue → String
  | .str s => "u" ++ pyQuote ++ s ++ pyQuote
  | .num n => toString n
  | .bool true => "True"
  | .bool false => "False"
  | .null => "None"
  | .arr l => "[" ++ pyReprList l ++ "]"
  | .obj o => "\x7b" ++ pyReprMembers o ++ "\x7d"
def pyReprList : JSONList → String
  | .nil => ""
  | .cons v .nil => pyRepr v
  | .cons v (.cons w t) => pyRepr v ++ ", " ++ pyReprList (.cons w t)
def pyReprMembers : JSONObject → String
  | .nil => ""
  | .cons k v .nil => "u" ++ pyQuote ++ k ++ pyQuote ++ ": " ++ pyRepr v
  | .cons k v (.cons k' v' t) =>
    ("u" ++ pyQuote ++ k ++ pyQuote ++ ": " ++ pyRepr v) ++ ", " ++
      pyReprMembers (.cons k' v' t)
end

/-- `matchExpressionFromJSON(service, json)`: requires `field` then `value`
(first missing key wins), resolves the field name through the service,
coerces the value with `unicode`, and decodes `match` (default `"equals"`)
and `flags` (default the empty-brace string). -/
def matchExpressionFromJSON (service : Service) (json : JSONObject) :
    Except Err Expression :=
  match json.lookup "field" with
  | none => .error (.missingField "field")
  | some jsonField =>
    match json.lookup "value" with
    | none => .error (.missingField "value")
    | some jsonValue =>
      match service.fieldNameLookupByName jsonField with
      | .error e => .error e
      | .ok fieldName =>
        let fieldValue := stringify jsonValue
        match matchTypeFromJSON (json.lookupD "match" (.str "equals")) with
        | .error e => .error e
        | .ok matchType =>
          match matchFlagsFromJSON (json.lookupD "flags" (.str "{}")) with
          | .error e => .error e
          | .ok flags => .ok (.MatchExpression fieldName fieldValue matchType flags)

/-- `existsExpressionFromJSON(service, json)`: requires `field` and resolves
it through the service. -/
def existsExpressionFromJSON (service : Service) (json : JSONObject) :
    Except Err Expression :=
  match json.lookup "field" with
  | none => .error (.missingField "field")
  | some jsonField =>
    match service.fieldNameLookupByName jsonField with
    | .error e => .error e
    | .ok fieldName => .ok (.ExistsExpression fieldName)

/-- `booleanExpressionFromJSON(service, json)`: requires `field` and resolves
it through the service. -/
def booleanExpressionFromJSON (service : Service) (json : JSONObject) :
    Except Err Expression :=
  match json.lookup "field" with
  | none => .error (.missingField "field")
  | some jsonField =>
    match service.fieldNameLookupByName jsonField with
    | .error e => .error e
    | .ok fieldName => .ok (.BooleanExpression fieldName)

/-- A value found by key lookup is structurally smaller than the object it
came from (termination measure for the recursive decoders). -/
def lookupSizeLt : ∀ (o : JSONObject) (k : String) (v : JSONValue),
    o.lookup k = some v → sizeOf v < sizeOf o
  | .nil, _, _, h => by simp [JSONObject.lookup] at h
  | .cons k' v' t, k, v, h => by
    simp only [JSONObject.lookup] at h
    by_cases hk : k' = k
    · simp [hk] at h
      subst h
      simp
      omega
    · simp [hk] at h
      have := lookupSizeLt t k v h
      simp
      omega

/-! The public decoder, exactly as the source behaves.  `expressionFromJSON`
takes the JSON value alone; it rejects non-objects (`TypeError`), requires a
`type` key, and dispatches on the `type` string.  The `CompoundExpression`
branch calls `compoundExpressionFromJSON(json)`, whose child decoding loop
(`tuple(expressionFromJSON(e) for e in expressions_json)`) runs first and the
operand lookup second.  The three leaf branches are the source lines
`return matchExpressionFromJSON(json)`, `return existsExpressionFromJSON(json)`
and `return booleanExpressionFromJSON(json)`: each passes a single argument
to a function with two required parameters, so Python raises `TypeError` at
the call site, before any field of the object is examined — modelled as
`Err.arityError`. -/
mutual
def expressionFromJSON : JSONValue → Except Err Expression
  | .obj o =>
    (match o.lookup "type" with
    | none => .error (.missingField "type")
    | some jsonType =>
      match jsonType with
      | .str "CompoundExpression" => compoundExpressionFromJSON o
      | .str "MatchExpression" => .error .arityError
      | .str "ExistsExpression" => .error .arityError
      | .str "BooleanExpression" => .error .arityError
      | t => .error (.unknownExpressionType t))
  | _ => .error .typeMismatch
termination_by j => sizeOf j
decreasing_by
  all_goals simp_wf

def compoundExpressionFromJSON (json : JSONObject) : Except Err Expression :=
  match h : json.lookup "expressions" with
  | none => .error (.missingField "expressions")
  | some expressionsJson =>
    match json.lookup "operand" with
    | none => .error (.missingField "operand")
    | some operandJson =>
      match expressionsJson with
      | .arr l =>
        (match expressionsFromJSON l with
        | .error e => .error e
        | .ok expressions =>
          match Operand.lookupByName operandJson with
          | .error e => .error e
          | .ok operand => .ok (.CompoundExpression expressions operand))
      | _ => .error .typeMismatch
termination_by sizeOf json
decreasing_by
  all_goals simp_wf
  have := lookupSizeLt json "expressions" (.arr l) h
  simp at this
  omega

def expressionsFromJSON : JSONList → Except Err ExpressionList
  | .nil => .ok .nil
  | .cons v t =>
    match expressionFromJSON v with
    | .error e => .error e
    | .ok e =>
      match expressionsFromJSON t with
      | .error e2 => .error e2
      | .ok es => .ok (.cons e es)
termination_by l => sizeOf l
decreasing_by
  all_goals simp_wf <;> omega
end

/-! Modelled from the spec: the intended decode contract of §4.3 —
`DecodeExpression(resolver, json)`, with the resolver threaded through every
recursive call, including the compound-expression children ("an implementer
must thread the resolver through all recursive calls ... treat this as the
intended contract").  Identical to `expressionFromJSON` except that the
three leaf branches actually invoke the leaf decoders with the service. -/
mutual
def decodeExpression (service : Service) : JSONValue → Except Err Expression
  | .obj o =>
    (match o.lookup "type" with
    | none => .error (.missingField "type")
    | some jsonType =>
      match jsonType with
      | .str "CompoundExpression" => decodeCompoundExpression service o
      | .str "MatchExpression" => matchExpressionFromJSON service o
      | .str "ExistsExpression" => existsExpressionFromJSON service o
      | .str "BooleanExpression" => booleanExpressionFromJSON service o
      | t => .error (.unknownExpressionType t))
  | _ => .error .typeMismatch
termination_by j => sizeOf j
decreasing_by
  all_goals simp_wf

def decodeCompoundExpression (service : Service) (json : JSONObject) :
    Except Err Expression :=
  match h : json.lookup "expressions" with
  | none => .error (.missingField "expressions")
  | some expressionsJson =>
    match json.lookup "operand" with
    | none => .error (.missingField "operand")
    | some operandJson =>
      match expressionsJson with
      | .arr l =>
        (match decodeExpressions service l with
        | .error e => .error e
        | .ok expressions =>
          match Operand.lookupByName operandJson with
          | .error e => .error e
          | .ok operand => .ok (.CompoundExpression expressions operand))
      | _ => .error .typeMismatch
termination_by sizeOf json
decreasing_by
  all_goals simp_wf
  have := lookupSizeLt json "expressions" (.arr l) h
  simp at this
  omega

def decodeExpressions (service : Service) : JSONList → Except Err ExpressionList
  | .nil => .ok .nil
  | .cons v t =>
    match decodeExpression service v with
    | .error e => .error e
    | .ok e =>
      match decodeExpressions service t with
      | .error e2 => .error e2
      | .ok es => .ok (.cons e es)
termination_by l => sizeOf l
decreasing_by
  all_goals simp_wf <;> omega
end

/-- String-body parser for the JSON text decoder: consume characters up to
the closing unescaped quote, mapping a backslash-escaped character to
itself (the inverse of `escapeChars` on the two modelled escapes). -/
def parseStringChars : List Char → Except Err (List Char × List Char)
  | [] => .error .malformedJSON
  | '"' :: rest => .ok ([], rest)
  | '\\' :: [] => .error .malformedJSON
  | '\\' :: c :: rest =>
    (match parseStringChars rest with
    | .error e => .error e
    | .ok (s, r) => .ok (c :: s, r))
  | c :: rest =>
    match parseStringChars rest with
    | .error e => .error e
    | .ok (s, r) => .ok (c :: s, r)

/-- Leading digit run of the number parser. -/
def takeDigits : List Char → List Char × List Char
  | [] => ([], [])
  | c :: cs =>
    if c.isDigit then
      match takeDigits cs with
      | (ds, r) => (c :: ds, r)
    else ([], c :: cs)

/-- Digit run to a natural number. -/
def digitsToNat (ds : List Char) : Nat :=
  ds.foldl (fun acc c => acc * 10 + (c.toNat - 48)) 0

/-- Integer parser for the JSON text decoder (optional minus sign followed by
at least one digit; fractions and exponents are not modelled — the codec
never produces numeric output). -/
def parseNumber (input : List Char) : Except Err (JSONValue × List Char) :=
  match input with
  | '-' :: rest =>
    (match takeDigits rest with
    | ([], _) => .error .malformedJSON
    | (ds, r) => .ok (.num (-(digitsToNat ds : Int)), r))
  | _ =>
    match takeDigits input with
    | ([], _) => .error .malformedJSON
    | (ds, r) => .ok (.num (digitsToNat ds : Int), r)

/-! Modelled from the spec: `json.loads` (§1, §4.4) — the external JSON text
parser, assumed correct, here a recursive-descent parser on the character
list, structurally recursive on a fuel bound.  Surrounding whitespace and the
string escapes other than the two the serializer emits are not modelled; the
codec's own output never contains them. -/
mutual
def parseValue : Nat → List Char → Except Err (JSONValue × List Char)
  | 0, _ => .error .malformedJSON
  | fuel + 1, input =>
    match input with
    | '"' :: rest =>
      (match parseStringChars rest with
      | .error e => .error e
      | .ok (cs, r) => .ok (.str (String.mk cs), r))
    | 't' :: 'r' :: 'u' :: 'e' :: rest => .ok (.bool true, rest)
    | 'f' :: 'a' :: 'l' :: 's' :: 'e' :: rest => .ok (.bool false, rest)
    | 'n' :: 'u' :: 'l' :: 'l' :: rest => .ok (.null, rest)
    | '[' :: rest =>
      (match rest with
      | ']' :: r => .ok (.arr .nil, r)
      | _ =>
        match parseElements fuel rest with
        | .error e => .error e
        | .ok (l, r) => .ok (.arr l, r))
    | '{' :: rest =>
      (match rest with
      | '}' :: r => .ok (.obj .nil, r)
      | _ =>
        match parseMembers fuel rest with
        | .error e => .error e
        | .ok (o, r) => .ok (.obj o, r))
    | _ => parseNumber input

def parseElements : Nat → List Char → Except Err (JSONList × List Char)
  | 0, _ => .error .malformedJSON
  | fuel + 1, input =>
    match parseValue fuel input with
    | .error e => .error e
    | .ok (v, r) =>
      match r with
      | ',' :: more =>
        (match parseElements fuel more with
        | .error e => .error e
        | .ok (l, r2) => .ok (.cons v l, r2))
      | ']' :: r2 => .ok (.cons v .nil, r2)
      | _ => .error .malformedJSON

def parseMembers : Nat → List Char → Except Err (JSONObject × List Char)
  | 0, _ => .error .malformedJSON
  | fuel + 1, input =>
    match input with
    | '"' :: rest =>
      (match parseStringChars rest with
      | .error e => .error e
      | .ok (k, r) =>
        match r with
        | ':' :: r2 =>
          (match parseValue fuel r2 with
          | .error e => .error e
          | .ok (v, r3) =>
            match r3 with
            | ',' :: more =>
              (match parseMembers fuel more with
              | .error e => .error e
              | .ok (o, r4) => .ok (.cons (String.mk k) v o, r4))
            | '}' :: r4 => .ok (.cons (String.mk k) v .nil, r4)
            | _ => .error .malformedJSON)
        | _ => .error .malformedJSON)
    | _ => .error .malformedJSON
end

/-- `from_json_text` (`json.loads`): parse a whole string as one JSON value,
rejecting trailing data. -/
def from_json_text (s : String) : Except Err JSONValue :=
  match parseValue (s.data.length + 1) s.data with
  | .ok (v, []) => .ok v
  | .ok _ => .error .malformedJSON
  | .error e => .error e

/-- `expressionFromJSONText`: parse text and decode through the public
(buggy) decoder. -/
def expressionFromJSONText (jsonText : String) : Except Err Expression :=
  match from_json_text jsonText with
  | .error e => .error e
  | .ok json => expressionFromJSON json

/-- Modelled from the spec: `DecodeExpressionText(resolver, text)` (§4.4) —
parse text and decode with the resolver threaded through. -/
def decodeExpressionText (service : Service) (jsonText : String) :
    Except Err Expression :=
  match from_json_text jsonText with
  | .error e => .error e
  | .ok json => decodeExpression service json

/-! Well-formedness of an expression tree with respect to a resolver: every
field name stored in the tree resolves back to itself ("a resolver
consistent with the field names in `T`"). -/
mutual
def wfE (service : Service) : Expression → Prop
  | .MatchExpression f _ _ _ => service.fieldNameLookupByName (.str f.name) = .ok f
  | .ExistsExpression f => service.fieldNameLookupByName (.str f.name) = .ok f
  | .BooleanExpression f => service.fieldNameLookupByName (.str f.name) = .ok f
  | .CompoundExpression es _ => wfL service es
def wfL (service : Service) : ExpressionList → Prop
  | .nil => True
  | .cons e t => wfE service e ∧ wfL service t
end

/-! A JSON value free of numeric leaves.  The encoder only ever emits
strings, arrays and objects; the text round-trip lemmas are proved for
number-free values. -/
mutual
def numFreeV : JSONValue → Prop
  | .str _ => True
  | .num _ => False
  | .bool _ => True
  | .null => True
  | .arr l => numFreeL l
  | .obj o => numFreeO o
def numFreeL : JSONList → Prop
  | .nil => True
  | .cons v t => numFreeV v ∧ numFreeL t
def numFreeO : JSONObject → Prop
  | .nil => True
  | .cons _ v t => numFreeV v ∧ numFreeO t
end

/-! Parse-call fuel requirement of a JSON value (each parser call consumes
one unit of fuel). -/
mutual
def sizeV : JSONValue → Nat
  | .str _ => 1
  | .num _ => 1
  | .bool _ => 1
  | .null => 1
  | .arr l => 1 + sizeL l
  | .obj o => 1 + sizeO o
def sizeL : JSONList → Nat
  | .nil => 0
  | .cons v t => 1 + sizeV v + sizeL t
def sizeO : JSONObject → Nat
  | .nil => 0
  | .cons _ v t => 1 + sizeV v + sizeO t
end

/-! No string occurring in the tree contains a space character (field names,
field values; the enumeration names never contain one). -/
mutual
def spaceFreeE : Expression → Prop
  | .MatchExpression f v _ _ => (' ' ∈ f.name.data → False) ∧ (' ' ∈ v.data → False)
  | .ExistsExpression f => ' ' ∈ f.name.data → False
  | .BooleanExpression f => ' ' ∈ f.name.data → False
  | .CompoundExpression es _ => spaceFreeL es
def spaceFreeL : ExpressionList → Prop
  | .nil => True
  | .cons e t => spaceFreeE e ∧ spaceFreeL t
end

/-! No string occurring in the JSON value contains a space character (for a
numeric leaf: its decimal rendering contains none). -/
mutual
def spaceFreeV : JSONValue → Prop
  | .str s => ' ' ∈ s.data → False
  | .num n => ' ' ∈ (toString n).data → False
  | .bool _ => True
  | .null => True
  | .arr l => spaceFreeVL l
  | .obj o => spaceFreeVO o
def spaceFreeVL : JSONList → Prop
  | .nil => True
  | .cons v t => spaceFreeV v ∧ spaceFreeVL t
def spaceFreeVO : JSONObject → Prop
  | .nil => True
  | .cons k v t => (' ' ∈ k.data → False) ∧ spaceFreeV v ∧ spaceFreeVO t
end

/-- A resolver for the sample trees used by the witnesses: it knows the two
field names `uid` and `guid`. -/
def sampleService : Service :=
  ⟨fun j =>
    match j with
    | .str "uid" => .ok ⟨"uid"⟩
    | .str "guid" => .ok ⟨"guid"⟩
    | j => .error (.unknownFieldName j)⟩

/-- A sample leaf expression (an existence check on `uid`). -/
def sampleExists : Expression := .ExistsExpression ⟨"uid"⟩

/-- A sample tree exercising all four variants. -/
def sampleTree : Expression :=
  .CompoundExpression
    (.cons (.ExistsExpression ⟨"uid"⟩)
      (.cons (.MatchExpression ⟨"guid"⟩ "xyz" .startsWith ⟨true, false⟩)
        (.cons (.BooleanExpression ⟨"uid"⟩)
          (.cons (.CompoundExpression
            (.cons (.MatchExpression ⟨"uid"⟩ "a,b" .equals ⟨true, true⟩) .nil) .OR)
            .nil))))
    .AND

/-- The comma-separated components of the interior of a brace-wrapped flags
string (`json[1:-1].split(",")`), as strings. -/
def componentsOf (s : String) : List String :=
  (splitComma ((s.data.drop 1).dropLast)).map String.mk

/-- Resolve every name in a list of flag components, or report that some
name is unresolvable (used to state the flags-grammar claim). -/
def resolveFlagList : List String → Option (List MatchFlags)
  | [] => some []
  | p :: ps =>
    match MatchFlags.lookupByName p with
    | .error _ => none
    | .ok f =>
      match resolveFlagList ps with
      | none => none
      | some fs => some (f :: fs)

theorem matchType_name_roundtrip (m : MatchType) :
    MatchType.lookupByName (.str m.name) = .ok m := by
  cases m <;> rfl

theorem operand_name_roundtrip (op : Operand) :
    Operand.lookupByName (.str op.name) = .ok op := by
  cases op <;> rfl

theorem matchFlags_name_roundtrip (fl : MatchFlags) :
    matchFlagsFromJSON (.str fl.name) = .ok fl := by
  obtain ⟨n, ci⟩ := fl
  cases n <;> cases ci <;> rfl

theorem stringify_str (s : String) : stringify (.str s) = s := rfl

mutual
theorem decodeExpression_encode (service : Service) (e : Expression)
    (h : wfE service e) :
    decodeExpression service (expressionAsJSON e) = .ok e := by
  cases e with
  | MatchExpression f v m fl =>
    simp only [wfE] at h
    simp [expressionAsJSON, matchExpressionAsJSON, decodeExpression,
      matchExpressionFromJSON, JSONObject.lookup, JSONObject.lookupD, h,
      matchTypeFromJSON, matchType_name_roundtrip, matchFlags_name_roundtrip,
      stringify]
  | ExistsExpression f =>
    simp only [wfE] at h
    simp [expressionAsJSON, existsExpressionAsJSON, decodeExpression,
      existsExpressionFromJSON, JSONObject.lookup, h]
  | BooleanExpression f =>
    simp only [wfE] at h
    simp [expressionAsJSON, booleanExpressionAsJSON, decodeExpression,
      booleanExpressionFromJSON, JSONObject.lookup, h]
  | CompoundExpression es op =>
    simp only [wfE] at h
    have hl := decodeExpressions_encode service es h
    simp [expressionAsJSON, decodeExpression, decodeCompoundExpression,
      JSONObject.lookup, hl, operand_name_roundtrip]

theorem decodeExpressions_encode (service : Service) (l : ExpressionList)
    (h : wfL service l) :
    decodeExpressions service (expressionListAsJSON l) = .ok l := by
  cases l with
  | nil => simp [expressionListAsJSON, decodeExpressions]
  | cons e t =>
    obtain ⟨he, ht⟩ := h
    simp [expressionListAsJSON, decodeExpressions,
      decodeExpression_encode service e he, decodeExpressions_encode service t ht]
end

theorem parseStringChars_escape : ∀ (cs rest : List Char),
    parseStringChars (escapeChars cs ++ '"' :: rest) = .ok (cs, rest)
  | [], rest => by simp [escapeChars, parseStringChars]
  | c :: cs, rest => by
    by_cases hq : c = '"'
    · subst hq
      simp [escapeChars, parseStringChars, parseStringChars_escape cs rest]
    · by_cases hb : c = '\\'
      · subst hb
        simp [escapeChars, parseStringChars, parseStringChars_escape cs rest]
      · simp only [escapeChars, if_neg hq, if_neg hb, List.cons_append]
        rw [show parseStringChars (c :: (escapeChars cs ++ '"' :: rest)) =
          (match parseStringChars (escapeChars cs ++ '"' :: rest) with
          | .error e => .error e
          | .ok (s, r) => .ok (c :: s, r)) from ?_]
        · simp [parseStringChars_escape cs rest]
        · rw [parseStringChars.eq_def]
          split <;> simp_all

theorem renderValue_head (v : JSONValue) (h : numFreeV v) :
    ∃ c cs, renderValue v = c :: cs ∧ c ≠ ']' := by
  cases v with
  | str s => exact ⟨'"', _, rfl, by decide⟩
  | num n => simp [numFreeV] at h
  | bool b =>
    cases b
    · exact ⟨'f', _, rfl, by decide⟩
    · exact ⟨'t', _, rfl, by decide⟩
  | null => exact ⟨'n', _, rfl, by decide⟩
  | arr l => exact ⟨'[', _, rfl, by decide⟩
  | obj o => exact ⟨'{', _, rfl, by decide⟩

theorem sizeV_pos (v : JSONValue) : 1 ≤ sizeV v := by
  cases v <;> simp [sizeV]

theorem string_mk_data (s : String) : String.mk s.data = s := rfl

theorem renderList_cons (v : JSONValue) (t : JSONList) :
    ∃ g, renderList (.cons v t) = renderValue v ++ g := by
  cases t with
  | nil => exact ⟨[], by simp [renderList]⟩
  | cons w u => exact ⟨',' :: renderList (.cons w u), rfl⟩

theorem renderMembers_cons (k : String) (v : JSONValue) (t : JSONObject) :
    ∃ g, renderMembers (.cons k v t) = '"' :: g := by
  cases t with
  | nil => exact ⟨escapeChars k.data ++ '"' :: ':' :: renderValue v, rfl⟩
  | cons k' w u =>
    exact ⟨(escapeChars k.data ++ '"' :: ':' :: renderValue v) ++
      ',' :: renderMembers (.cons k' w u), by simp [renderMembers]⟩

theorem parse_render_aux : ∀ fuel : Nat,
    (∀ v : JSONValue, numFreeV v → sizeV v ≤ fuel → ∀ rest : List Char,
      parseValue fuel (renderValue v ++ rest) = .ok (v, rest)) ∧
    (∀ l : JSONList, l ≠ .nil → numFreeL l → sizeL l ≤ fuel → ∀ rest : List Char,
      parseElements fuel (renderList l ++ ']' :: rest) = .ok (l, rest)) ∧
    (∀ o : JSONObject, o ≠ .nil → numFreeO o → sizeO o ≤ fuel → ∀ rest : List Char,
      parseMembers fuel (renderMembers o ++ '}' :: rest) = .ok (o, rest)) := by
  intro fuel
  induction fuel with
  | zero =>
    refine ⟨?_, ?_, ?_⟩
    · intro v _ hsz rest
      exact absurd hsz (by have := sizeV_pos v; omega)
    · intro l hne hnf hsz rest
      cases l with
      | nil => exact (hne rfl).elim
      | cons v t => simp [sizeL] at hsz
    · intro o hne hnf hsz rest
      cases o with
      | nil => exact (hne rfl).elim
      | cons k v t => simp [sizeO] at hsz
  | succ n ih =>
    obtain ⟨ihV, ihL, ihO⟩ := ih
    refine ⟨?_, ?_, ?_⟩
    · intro v hnf hsz rest
      cases v with
      | str s =>
        simp only [renderValue, List.cons_append, List.append_assoc,
          List.singleton_append]
        simp only [parseValue]
        rw [parseStringChars_escape]
        simp [string_mk_data]
      | num m => simp [numFreeV] at hnf
      | bool b =>
        cases b <;> simp [renderValue, parseValue]
      | null => simp [renderValue, parseValue]
      | arr l =>
        cases l with
        | nil => simp [renderValue, renderList, parseValue]
        | cons v' t =>
          simp only [numFreeV, numFreeL] at hnf
          simp only [sizeV, sizeL] at hsz
          have hp := ihL (.cons v' t) (fun hh => JSONList.noConfusion hh)
            (by simp only [numFreeL]; exact hnf) (by simp only [sizeL]; omega) rest
          obtain ⟨g, hg⟩ := renderList_cons v' t
          obtain ⟨c, cs, hrv, hc⟩ := renderValue_head v' hnf.1
          simp only [renderValue, List.cons_append, List.append_assoc,
            List.singleton_append]
          simp only [parseValue]
          simp only [hg, hrv, List.cons_append, List.append_assoc,
            List.singleton_append, List.nil_append] at hp ⊢
          split
          · simp_all
          · rw [hp]
      | obj o =>
        cases o with
        | nil => simp [renderValue, renderMembers, parseValue]
        | cons k v' t =>
          simp only [numFreeV, numFreeO] at hnf
          simp only [sizeV, sizeO] at hsz
          have hp := ihO (.cons k v' t) (fun hh => JSONObject.noConfusion hh)
            (by simp only [numFreeO]; exact hnf) (by simp only [sizeO]; omega) rest
          obtain ⟨g, hg⟩ := renderMembers_cons k v' t
          simp only [renderValue, List.cons_append, List.append_assoc,
            List.singleton_append]
          simp only [parseValue]
          simp only [hg, List.cons_append, List.append_assoc,
            List.singleton_append, List.nil_append] at hp ⊢
          split
          · simp_all
          · rw [hp]
    · intro l hne hnf hsz rest
      cases l with
      | nil => exact (hne rfl).elim
      | cons v t =>
        simp only [numFreeL] at hnf
        simp only [sizeL] at hsz
        cases t with
        | nil =>
          simp only [renderList, parseElements]
          rw [ihV v hnf.1 (by omega) (']' :: rest)]
          simp
        | cons w u =>
          simp only [renderList, List.cons_append, List.append_assoc]
          simp only [parseElements]
          rw [ihV v hnf.1 (by omega) _]
          have hp := ihL (.cons w u) (fun hh => JSONList.noConfusion hh)
            hnf.2 (by simp only [sizeL] at hsz ⊢; omega) rest
          simp only [List.cons_append, List.append_assoc] at hp ⊢
          rw [hp]
    · intro o hne hnf hsz rest
      cases o with
      | nil => exact (hne rfl).elim
      | cons k v t =>
        simp only [numFreeO] at hnf
        simp only [sizeO] at hsz
        cases t with
        | nil =>
          simp only [renderMembers, List.cons_append, List.append_assoc,
            List.singleton_append]
          simp only [parseMembers]
          rw [parseStringChars_escape]
          simp only [string_mk_data]
          rw [ihV v hnf.1 (by omega) ('}' :: rest)]
          simp
        | cons k' v' u =>
          simp only [renderMembers, List.cons_append, List.append_assoc,
            List.singleton_append]
          simp only [parseMembers]
          rw [parseStringChars_escape]
          simp only [string_mk_data]
          rw [ihV v hnf.1 (by omega) _]
          have hp := ihO (.cons k' v' u) (fun hh => JSONObject.noConfusion hh)
            hnf.2 (by simp only [sizeO] at hsz ⊢; omega) rest
          simp only [List.cons_append, List.append_assoc] at hp ⊢
          rw [hp]

mutual
theorem sizeV_le_render (v : JSONValue) (h : numFreeV v) :
    sizeV v ≤ (renderValue v).length := by
  cases v with
  | str s => simp [sizeV, renderValue]
  | num m => simp [numFreeV] at h
  | bool b => cases b <;> simp [sizeV, renderValue]
  | null => simp [sizeV, renderValue]
  | arr l =>
    have := sizeL_le_render l h
    simp only [sizeV, renderValue, List.length_cons, List.length_append,
      List.length_singleton]
    omega
  | obj o =>
    have := sizeO_le_render o h
    simp only [sizeV, renderValue, List.length_cons, List.length_append,
      List.length_singleton]
    omega

theorem sizeL_le_render (l : JSONList) (h : numFreeL l) :
    sizeL l ≤ (renderList l).length + 1 := by
  cases l with
  | nil => simp [sizeL]
  | cons v t =>
    obtain ⟨hv, ht⟩ := h
    have h1 := sizeV_le_render v hv
    cases t with
    | nil => simp only [sizeL, renderList]; omega
    | cons w u =>
      have h2 := sizeL_le_render (.cons w u) ht
      simp only [sizeL, renderList, List.length_append, List.length_cons] at h2 ⊢
      omega

theorem sizeO_le_render (o : JSONObject) (h : numFreeO o) :
    sizeO o ≤ (renderMembers o).length + 1 := by
  cases o with
  | nil => simp [sizeO]
  | cons k v t =>
    obtain ⟨hv, ht⟩ := h
    have h1 := sizeV_le_render v hv
    cases t with
    | nil =>
      simp only [sizeO, sizeL, renderMembers, List.length_cons,
        List.length_append]
      omega
    | cons k' v' u =>
      have h2 := sizeO_le_render (.cons k' v' u) ht
      simp only [sizeO, renderMembers, List.length_append, List.length_cons] at h2 ⊢
      omega
end

mutual
theorem numFree_encode (e : Expression) : numFreeV (expressionAsJSON e) := by
  cases e with
  | MatchExpression f v m fl =>
    simp [expressionAsJSON, matchExpressionAsJSON, numFreeV, numFreeO]
  | ExistsExpression f =>
    simp [expressionAsJSON, existsExpressionAsJSON, numFreeV, numFreeO]
  | BooleanExpression f =>
    simp [expressionAsJSON, booleanExpressionAsJSON, numFreeV, numFreeO]
  | CompoundExpression es op =>
    simp [expressionAsJSON, numFreeV, numFreeO, numFree_encodeList es]

theorem numFree_encodeList (l : ExpressionList) :
    numFreeL (expressionListAsJSON l) := by
  cases l with
  | nil => simp [expressionListAsJSON, numFreeL]
  | cons e t =>
    simp [expressionListAsJSON, numFreeL, numFree_encode e, numFree_encodeList t]
end

theorem from_json_text_to_json_text (v : JSONValue) (h : numFreeV v) :
    from_json_text (to_json_text v) = .ok v := by
  have hle := sizeV_le_render v h
  have hp := (parse_render_aux ((renderValue v).length + 1)).1 v h (by omega) []
  rw [List.append_nil] at hp
  simp only [from_json_text, to_json_text, string_mk_data]
  rw [hp]

theorem decodeText_encodeText (service : Service) (e : Expression)
    (h : wfE service e) :
    decodeExpressionText service (expressionAsJSONText e) = .ok e := by
  have h1 := from_json_text_to_json_text (expressionAsJSON e) (numFree_encode e)
  simp only [decodeExpressionText, expressionAsJSONText]
  rw [h1]
  exact decodeExpression_encode service e h

theorem escape_no_space : ∀ cs : List Char, (' ' ∈ cs → False) →
    ' ' ∈ escapeChars cs → False := by
  intro cs
  induction cs with
  | nil => intro _ hh; simp [escapeChars] at hh
  | cons c cs ih =>
    intro h hh
    have ht := ih fun x => h (List.mem_cons_of_mem _ x)
    have hc : (' ' : Char) ≠ c := fun x => h (x ▸ List.mem_cons_self _ _)
    simp only [escapeChars] at hh
    split at hh
    · simp only [List.mem_cons] at hh
      rcases hh with he | he | he
      · exact absurd he (by decide)
      · exact absurd he (by decide)
      · exact ht he
    · split at hh
      · simp only [List.mem_cons] at hh
        rcases hh with he | he | he
        · exact absurd he (by decide)
        · exact absurd he (by decide)
        · exact ht he
      · simp only [List.mem_cons] at hh
        rcases hh with he | he
        · exact hc he
        · exact ht he

mutual
theorem render_no_space (v : JSONValue) (h : spaceFreeV v) :
    ' ' ∈ renderValue v → False := by
  intro hh
  cases v with
  | str s =>
    simp only [renderValue, List.mem_cons, List.mem_append,
      List.mem_singleton] at hh
    rcases hh with he | he | he
    · exact absurd he (by decide)
    · exact escape_no_space s.data h he
    · exact absurd he (by decide)
  | num n => exact h hh
  | bool b =>
    cases b
    · exact absurd hh (by decide)
    · exact absurd hh (by decide)
  | null => exact absurd hh (by decide)
  | arr l =>
    simp only [renderValue, List.mem_cons, List.mem_append,
      List.mem_singleton] at hh
    rcases hh with he | he | he
    · exact absurd he (by decide)
    · exact renderList_no_space l h he
    · exact absurd he (by decide)
  | obj o =>
    simp only [renderValue, List.mem_cons, List.mem_append,
      List.mem_singleton] at hh
    rcases hh with he | he | he
    · exact absurd he (by decide)
    · exact renderMembers_no_space o h he
    · exact absurd he (by decide)

theorem renderList_no_space (l : JSONList) (h : spaceFreeVL l) :
    ' ' ∈ renderList l → False := by
  intro hh
  cases l with
  | nil => simp [renderList] at hh
  | cons v t =>
    obtain ⟨hv, ht⟩ := h
    cases t with
    | nil => exact render_no_space v hv hh
    | cons w u =>
      simp only [renderList, List.mem_append, List.mem_cons] at hh
      rcases hh with he | he | he
      · exact render_no_space v hv he
      · exact absurd he (by decide)
      · exact renderList_no_space (.cons w u) ht he

theorem renderMembers_no_space (o : JSONObject) (h : spaceFreeVO o) :
    ' ' ∈ renderMembers o → False := by
  intro hh
  cases o with
  | nil => simp [renderMembers] at hh
  | cons k v t =>
    obtain ⟨hk, hv, ht⟩ := h
    cases t with
    | nil =>
      simp only [renderMembers, List.mem_cons, List.mem_append] at hh
      rcases hh with he | he | he | he | he
      · exact absurd he (by decide)
      · exact escape_no_space k.data hk he
      · exact absurd he (by decide)
      · exact absurd he (by decide)
      · exact render_no_space v hv he
    | cons k' v' u =>
      simp only [renderMembers, List.mem_append, List.mem_cons] at hh
      rcases hh with ((he | he | he | he | he) | he | he)
      · exact absurd he (by decide)
      · exact escape_no_space k.data hk he
      · exact absurd he (by decide)
      · exact absurd he (by decide)
      · exact render_no_space v hv he
      · exact absurd he (by decide)
      · exact renderMembers_no_space (.cons k' v' u) ht he
end

theorem matchType_name_no_space (m : MatchType) : ' ' ∈ m.name.data → False := by
  cases m <;> decide

theorem matchFlags_name_no_space (fl : MatchFlags) : ' ' ∈ fl.name.data → False := by
  obtain ⟨n, ci⟩ := fl
  cases n <;> cases ci <;> decide

theorem operand_name_no_space (op : Operand) : ' ' ∈ op.name.data → False := by
  cases op <;> decide

mutual
theorem encode_space_free (e : Expression) (h : spaceFreeE e) :
    spaceFreeV (expressionAsJSON e) := by
  cases e with
  | MatchExpression f v m fl =>
    simp only [spaceFreeE] at h
    obtain ⟨hf, hv⟩ := h
    simp only [expressionAsJSON, matchExpressionAsJSON, spaceFreeV, spaceFreeVO]
    exact ⟨by decide, by decide, by decide, hf, by decide, hv, by decide,
      matchType_name_no_space m, by decide, matchFlags_name_no_space fl, trivial⟩
  | ExistsExpression f =>
    simp only [spaceFreeE] at h
    simp only [expressionAsJSON, existsExpressionAsJSON, spaceFreeV, spaceFreeVO]
    exact ⟨by decide, by decide, by decide, h, trivial⟩
  | BooleanExpression f =>
    simp only [spaceFreeE] at h
    simp only [expressionAsJSON, booleanExpressionAsJSON, spaceFreeV, spaceFreeVO]
    exact ⟨by decide, by decide, by decide, h, trivial⟩
  | CompoundExpression es op =>
    simp only [spaceFreeE] at h
    simp only [expressionAsJSON, spaceFreeV, spaceFreeVO]
    exact ⟨by decide, by decide, by decide, operand_name_no_space op, by decide,
      encodeList_space_free es h, trivial⟩

theorem encodeList_space_free (l : ExpressionList) (h : spaceFreeL l) :
    spaceFreeVL (expressionListAsJSON l) := by
  cases l with
  | nil => simp [expressionListAsJSON, spaceFreeVL]
  | cons e t =>
    simp only [spaceFreeL] at h
    exact ⟨encode_space_free e h.1, encodeList_space_free t h.2⟩
end

theorem matchFlags_lookup_error (s : String) (e : Err)
    (h : MatchFlags.lookupByName s = .error e) : e = .unknownFlag s := by
  simp only [MatchFlags.lookupByName] at h
  split at h
  · cases h
  · split at h
    · cases h
    · simp only [Except.error.injEq] at h
      exact h.symm

theorem orFlagsFrom_ok (ps : List (List Char)) : ∀ (acc fl : MatchFlags),
    (orFlagsFrom acc ps = .ok fl ↔
      ∃ gs, resolveFlagList (ps.map String.mk) = some gs ∧
        fl = gs.foldl MatchFlags.union acc) := by
  induction ps with
  | nil =>
    intro acc fl
    simp only [orFlagsFrom, resolveFlagList, List.map_nil, Except.ok.injEq,
      Option.some.injEq, List.foldl_nil]
    constructor
    · intro h; exact ⟨[], rfl, h.symm⟩
    · rintro ⟨gs, hgs, hfl⟩
      cases hgs
      exact hfl.symm
  | cons p ps ih =>
    intro acc fl
    cases hlk : MatchFlags.lookupByName (String.mk p) with
    | error e =>
      simp only [orFlagsFrom, hlk, List.map_cons, resolveFlagList]
      constructor
      · intro h; cases h
      · rintro ⟨gs, hgs, hfl⟩
        cases hgs
    | ok f =>
      simp only [orFlagsFrom, hlk, List.map_cons, resolveFlagList, ih]
      constructor
      · rintro ⟨gs, hgs, hfl⟩
        exact ⟨f :: gs, by simp [hgs], by simp [hfl]⟩
      · rintro ⟨gs, hgs, hfl⟩
        cases hrs : resolveFlagList (ps.map String.mk) with
        | none => simp [hrs] at hgs
        | some fs =>
          simp only [hrs, Option.some.injEq] at hgs
          subst hgs
          exact ⟨fs, rfl, by simp [hfl]⟩

theorem orFlagsFrom_fail (ps : List (List Char)) : ∀ acc : MatchFlags,
    resolveFlagList (ps.map String.mk) = none →
    ∃ nm, orFlagsFrom acc ps = .error (.unknownFlag nm) := by
  induction ps with
  | nil => intro acc h; simp [resolveFlagList] at h
  | cons p ps ih =>
    intro acc h
    simp only [List.map_cons, resolveFlagList] at h
    cases hlk : MatchFlags.lookupByName (String.mk p) with
    | error e =>
      refine ⟨String.mk p, ?_⟩
      simp only [orFlagsFrom, hlk, matchFlags_lookup_error _ _ hlk]
    | ok f =>
      simp only [hlk] at h
      cases hrs : resolveFlagList (ps.map String.mk) with
      | none =>
        obtain ⟨nm, hnm⟩ := ih (acc.union f) hrs
        exact ⟨nm, by simp [orFlagsFrom, hlk, hnm]⟩
      | some fs => simp [hrs] at h

theorem lookup_snoc : ∀ (o : JSONObject) (k key : String) (v : JSONValue),
    (o.snoc k v).lookup key =
      match o.lookup key with
      | some w => some w
      | none => if k = key then some v else none
  | .nil, k, key, v => by simp [JSONObject.snoc, JSONObject.lookup]
  | .cons k' v' t, k, key, v => by
    simp only [JSONObject.snoc, JSONObject.lookup]
    by_cases h : k' = key
    · simp [h]
    · simp [h, lookup_snoc t k key v]

theorem encodeList_toList : ∀ l : ExpressionList,
    (expressionListAsJSON l).toList = l.toList.map expressionAsJSON
  | .nil => rfl
  | .cons e t => by
    simp [expressionListAsJSON, ExpressionList.toList, JSONList.toList,
      encodeList_toList t]

/-- C2: for every JSON object whose `type` key is `"MatchExpression"`,
`"ExistsExpression"` or `"BooleanExpression"`, the public decoder
`expressionFromJSON` never returns an expression: the dispatch branch invokes
the corresponding leaf decoder with only the `json` argument while the leaf
decoder also requires the resolver argument, so the call raises the
arity `TypeError` before any field of the object is examined. -/
theorem C2_leaf_dispatch_arity (o : JSONObject)
    (h : o.lookup "type" = some (.str "MatchExpression") ∨
      o.lookup "type" = some (.str "ExistsExpression") ∨
      o.lookup "type" = some (.str "BooleanExpression")) :
    expressionFromJSON (.obj o) = .error .arityError := by
  rcases h with h | h | h <;> simp [expressionFromJSON, h]

/-- Witness for C2 at a concrete object that even carries all the fields a
match expression needs: the decode still fails with the arity error. -/
theorem C2_leaf_dispatch_arity_witness :
    expressionFromJSON (.obj (.cons "type" (.str "MatchExpression")
      (.cons "field" (.str "uid") (.cons "value" (.str "x") .nil)))) =
      .error .arityError :=
  C2_leaf_dispatch_arity _ (Or.inl rfl)

/-- C4: `expressionFromJSON` fails with `TypeMismatch` on any non-object,
with `MissingField "type"` on an object without a `type` key, and with
`UnknownExpressionType` naming the offending value when the `type` value is
a string other than the four known discriminators. -/
theorem C4_dispatch_errors :
    (∀ j : JSONValue, (∀ o : JSONObject, j ≠ .obj o) →
      expressionFromJSON j = .error .typeMismatch) ∧
    (∀ o : JSONObject, o.lookup "type" = none →
      expressionFromJSON (.obj o) = .error (.missingField "type")) ∧
    (∀ (o : JSONObject) (s : String), o.lookup "type" = some (.str s) →
      s ≠ "CompoundExpression" → s ≠ "MatchExpression" → s ≠ "ExistsExpression" →
      s ≠ "BooleanExpression" →
      expressionFromJSON (.obj o) = .error (.unknownExpressionType (.str s))) := by
  refine ⟨?_, ?_, ?_⟩
  · intro j hj
    cases j with
    | obj o => exact absurd rfl (hj o)
    | str s => simp [expressionFromJSON]
    | num n => simp [expressionFromJSON]
    | bool b => simp [expressionFromJSON]
    | null => simp [expressionFromJSON]
    | arr l => simp [expressionFromJSON]
  · intro o h
    simp [expressionFromJSON, h]
  · intro o s h h1 h2 h3 h4
    simp only [expressionFromJSON, h]
    split <;> simp_all

/-- Witness for C4 at concrete inputs: a string input, an object with no
`type` key, and an object with the unknown type `"Bogus"`. -/
theorem C4_dispatch_errors_witness :
    expressionFromJSON (.str "hello") = .error .typeMismatch ∧
    expressionFromJSON (.obj (.cons "field" (.str "uid") .nil)) =
      .error (.missingField "type") ∧
    expressionFromJSON (.obj (.cons "type" (.str "Bogus") .nil)) =
      .error (.unknownExpressionType (.str "Bogus")) :=
  ⟨C4_dispatch_errors.1 _ (fun o h => JSONValue.noConfusion h),
    C4_dispatch_errors.2.1 _ rfl,
    C4_dispatch_errors.2.2 _ "Bogus" rfl (by decide) (by decide) (by decide)
      (by decide)⟩

/-- C10: the compound decoder does not enforce non-emptiness: an object of
type `CompoundExpression` with a resolvable operand and an empty
`expressions` array decodes successfully to a compound expression with zero
children. -/
theorem C10_empty_compound (ov : JSONValue) (op : Operand)
    (h : Operand.lookupByName ov = .ok op) :
    expressionFromJSON (.obj (.cons "type" (.str "CompoundExpression")
      (.cons "operand" ov (.cons "expressions" (.arr .nil) .nil)))) =
      .ok (.CompoundExpression .nil op) := by
  simp [expressionFromJSON, compoundExpressionFromJSON, expressionsFromJSON,
    JSONObject.lookup, h]

/-- Witness for C10 with the operand name `"AND"`. -/
theorem C10_empty_compound_witness :
    expressionFromJSON (.obj (.cons "type" (.str "CompoundExpression")
      (.cons "operand" (.str "AND") (.cons "expressions" (.arr .nil) .nil)))) =
      .ok (.CompoundExpression .nil .AND) :=
  C10_empty_compound (.str "AND") .AND rfl

/-- C7: the encoder is total over the four variants, producing for a match
expression the keys `type, field, value, match, flags`; for exists/boolean
expressions the keys `type, field`; for a compound expression the keys
`type, operand, expressions` with the children encoded recursively in order;
and for any other input (the `isinstance` fall-through) it fails with
`UnsupportedType`. -/
theorem C7_encoder_total :
    (∀ (f : FieldName) (v : String) (m : MatchType) (fl : MatchFlags),
      expressionAsJSON (.MatchExpression f v m fl) =
        .obj (.cons "type" (.str "MatchExpression")
          (.cons "field" (.str f.name)
            (.cons "value" (.str v)
              (.cons "match" (.str m.name)
                (.cons "flags" (.str fl.name) .nil)))))) ∧
    (∀ f : FieldName, expressionAsJSON (.ExistsExpression f) =
      .obj (.cons "type" (.str "ExistsExpression")
        (.cons "field" (.str f.name) .nil))) ∧
    (∀ f : FieldName, expressionAsJSON (.BooleanExpression f) =
      .obj (.cons "type" (.str "BooleanExpression")
        (.cons "field" (.str f.name) .nil))) ∧
    (∀ (es : ExpressionList) (op : Operand),
      expressionAsJSON (.CompoundExpression es op) =
        .obj (.cons "type" (.str "CompoundExpression")
          (.cons "operand" (.str op.name)
            (.cons "expressions" (.arr (expressionListAsJSON es)) .nil))) ∧
      (expressionListAsJSON es).toList = es.toList.map expressionAsJSON) ∧
    expressionAsJSONAny none = .error .unsupportedType :=
  ⟨fun f v m fl => rfl, fun f => rfl, fun f => rfl,
    fun es op => ⟨rfl, encodeList_toList es⟩, rfl⟩

/-- C8: for every match-expression object whose `value` is any JSON value,
decoding (the other preconditions holding) succeeds with `fieldValue` equal
to the string form of that value — the `stringify` coercion is applied to
every decoded `value` uniformly. -/
theorem C8_value_stringified (service : Service) (o : JSONObject)
    (jf v : JSONValue) (fn : FieldName) (mt : MatchType) (fl : MatchFlags)
    (hf : o.lookup "field" = some jf)
    (hv : o.lookup "value" = some v)
    (hfn : service.fieldNameLookupByName jf = .ok fn)
    (hmt : matchTypeFromJSON (o.lookupD "match" (.str "equals")) = .ok mt)
    (hfl : matchFlagsFromJSON (o.lookupD "flags" (.str "{}")) = .ok fl) :
    matchExpressionFromJSON service o =
      .ok (.MatchExpression fn (stringify v) mt fl) := by
  simp only [matchExpressionFromJSON, hf, hv, hfn, hmt, hfl]

/-- Witness for C8 at a numeric `value`: the decoded node carries the
decimal string of the number. -/
theorem C8_value_stringified_witness :
    matchExpressionFromJSON sampleService
      (.cons "field" (.str "uid") (.cons "value" (.num 7) .nil)) =
      .ok (.MatchExpression ⟨"uid"⟩ "7" .equals MatchFlags.none) := by
  have h := C8_value_stringified sampleService
    (.cons "field" (.str "uid") (.cons "value" (.num 7) .nil))
    (.str "uid") (.num 7) ⟨"uid"⟩ .equals MatchFlags.none rfl rfl rfl rfl rfl
  simpa [stringify] using h

/-- C3: the flags decoder maps the literal empty-brace string to the empty
flag value; maps any other string that starts with an opening brace and ends
with a closing brace to the bitwise OR of looking up each comma-separated
name of its interior, failing when some component name is unresolvable; and
treats any other string (including an unterminated composite) as a single
flag name looked up directly. -/
theorem C3_flags_grammar :
    matchFlagsFromJSON (.str "{}") = .ok MatchFlags.none ∧
    (∀ (s : String) (fl : MatchFlags), s ≠ "{}" →
      (listStartsWith '{' s.data && listEndsWith '}' s.data) = true →
      (matchFlagsFromJSON (.str s) = .ok fl ↔
        ∃ gs, resolveFlagList (componentsOf s) = some gs ∧
          fl = gs.foldl MatchFlags.union MatchFlags.none)) ∧
    (∀ s : String, s ≠ "{}" →
      (listStartsWith '{' s.data && listEndsWith '}' s.data) = true →
      resolveFlagList (componentsOf s) = none →
      ∃ nm, matchFlagsFromJSON (.str s) = .error (.unknownFlag nm)) ∧
    (∀ s : String, (listStartsWith '{' s.data && listEndsWith '}' s.data) = false →
      matchFlagsFromJSON (.str s) = MatchFlags.lookupByName s) := by
  refine ⟨rfl, ?_, ?_, ?_⟩
  · intro s fl hne hbr
    simp only [matchFlagsFromJSON, matchFlagsFromString, if_neg hne, hbr,
      if_true, componentsOf]
    exact orFlagsFrom_ok _ MatchFlags.none fl
  · intro s hne hbr hfail
    simp only [matchFlagsFromJSON, matchFlagsFromString, if_neg hne, hbr,
      if_true]
    exact orFlagsFrom_fail _ MatchFlags.none (by simpa [componentsOf] using hfail)
  · intro s hbr
    by_cases hne : s = "{}"
    · subst hne; exact absurd hbr (by decide)
    · simp only [matchFlagsFromJSON, matchFlagsFromString, if_neg hne, hbr]
      simp

/-- Witness for C3: the composite of both flags decodes to their OR, and the
unterminated composite fails as a single unknown flag name. -/
theorem C3_flags_grammar_witness :
    matchFlagsFromJSON (.str "{NOT,caseInsensitive}") =
      .ok ⟨true, true⟩ ∧
    matchFlagsFromJSON (.str "\x7bA,B") =
      MatchFlags.lookupByName "\x7bA,B" :=
  ⟨(C3_flags_grammar.2.1 "{NOT,caseInsensitive}" ⟨true, true⟩ (by decide)
      (by decide)).mpr ⟨[⟨true, false⟩, ⟨false, true⟩], by decide, by decide⟩,
    C3_flags_grammar.2.2.2 "\x7bA,B" (by decide)⟩

/-- C6: a match-expression object omitting the `match` key decodes exactly as
if `match` were the string `"equals"`, one omitting `flags` decodes exactly
as if `flags` were the empty-brace string, and with both omitted the decoded
node carries the `equals` match type and the empty flag value. -/
theorem C6_defaults :
    (∀ (service : Service) (o : JSONObject), o.lookup "match" = none →
      matchExpressionFromJSON service o =
        matchExpressionFromJSON service (o.snoc "match" (.str "equals"))) ∧
    (∀ (service : Service) (o : JSONObject), o.lookup "flags" = none →
      matchExpressionFromJSON service o =
        matchExpressionFromJSON service (o.snoc "flags" (.str "{}"))) ∧
    (∀ (service : Service) (o : JSONObject) (jf v : JSONValue) (fn : FieldName),
      o.lookup "field" = some jf → o.lookup "value" = some v →
      o.lookup "match" = none → o.lookup "flags" = none →
      service.fieldNameLookupByName jf = .ok fn →
      matchExpressionFromJSON service o =
        .ok (.MatchExpression fn (stringify v) .equals MatchFlags.none)) := by
  refine ⟨?_, ?_, ?_⟩
  · intro service o h
    have h1 : (o.snoc "match" (.str "equals")).lookup "field" = o.lookup "field" := by
      rw [lookup_snoc]; cases o.lookup "field" <;> simp
    have h2 : (o.snoc "match" (.str "equals")).lookup "value" = o.lookup "value" := by
      rw [lookup_snoc]; cases o.lookup "value" <;> simp
    have h3 : (o.snoc "match" (.str "equals")).lookup "match" =
        some (.str "equals") := by
      rw [lookup_snoc, h]; simp
    have h4 : (o.snoc "match" (.str "equals")).lookup "flags" = o.lookup "flags" := by
      rw [lookup_snoc]; cases o.lookup "flags" <;> simp
    simp only [matchExpressionFromJSON, JSONObject.lookupD, h1, h2, h3, h4, h,
      Option.getD_some, Option.getD_none]
  · intro service o h
    have h1 : (o.snoc "flags" (.str "{}")).lookup "field" = o.lookup "field" := by
      rw [lookup_snoc]; cases o.lookup "field" <;> simp
    have h2 : (o.snoc "flags" (.str "{}")).lookup "value" = o.lookup "value" := by
      rw [lookup_snoc]; cases o.lookup "value" <;> simp
    have h3 : (o.snoc "flags" (.str "{}")).lookup "match" = o.lookup "match" := by
      rw [lookup_snoc]; cases o.lookup "match" <;> simp
    have h4 : (o.snoc "flags" (.str "{}")).lookup "flags" =
        some (.str "{}") := by
      rw [lookup_snoc, h]; simp
    simp only [matchExpressionFromJSON, JSONObject.lookupD, h1, h2, h3, h4, h,
      Option.getD_some, Option.getD_none]
  · intro service o jf v fn hf hv hm hfl hfn
    simp only [matchExpressionFromJSON, JSONObject.lookupD, hf, hv, hm, hfl,
      hfn, Option.getD_none]
    simp [matchTypeFromJSON, MatchType.lookupByName, matchFlagsFromJSON,
      matchFlagsFromString]

/-- Witness for C6 at a concrete object carrying only `field` and `value`. -/
theorem C6_defaults_witness :
    (matchExpressionFromJSON sampleService
        (.cons "field" (.str "uid") (.cons "value" (.str "x") .nil)) =
      matchExpressionFromJSON sampleService
        ((JSONObject.cons "field" (.str "uid")
          (.cons "value" (.str "x") .nil)).snoc "match" (.str "equals"))) ∧
    (matchExpressionFromJSON sampleService
        (.cons "field" (.str "uid") (.cons "value" (.str "x") .nil)) =
      matchExpressionFromJSON sampleService
        ((JSONObject.cons "field" (.str "uid")
          (.cons "value" (.str "x") .nil)).snoc "flags" (.str "{}"))) ∧
    matchExpressionFromJSON sampleService
        (.cons "field" (.str "uid") (.cons "value" (.str "x") .nil)) =
      .ok (.MatchExpression ⟨"uid"⟩ "x" .equals MatchFlags.none) :=
  ⟨C6_defaults.1 sampleService _ rfl, C6_defaults.2.1 sampleService _ rfl,
    C6_defaults.2.2 sampleService _ (.str "uid") (.str "x") ⟨"uid"⟩
      rfl rfl rfl rfl rfl⟩

/-- C9: the compact serializer emits the separators as a bare comma and a
bare colon with no padding, so for every expression tree whose strings are
space-free the produced text contains no space character at all — in
particular none adjacent to the separators; a space can only ever originate
from string content of the tree, never from the separators. -/
theorem C9_compact_text (e : Expression) (h : spaceFreeE e) :
    ' ' ∈ (expressionAsJSONText e).data → False := fun hh =>
  render_no_space (expressionAsJSON e) (encode_space_free e h) hh

/-- Witness for C9 at the concrete tree `sampleExists`, whose only string is
the space-free field name `uid`: the serialized text contains no space. -/
theorem C9_compact_text_witness :
    (expressionAsJSONText sampleExists).data.contains ' ' = false := by
  have h := C9_compact_text sampleExists
    (by simp only [sampleExists, spaceFreeE]; decide)
  simpa using h

/-- C1: the round-trip claim fails on the code as written: decoding the
encoding of a leaf expression (here an `ExistsExpression` on `uid`) raises
the arity `TypeError`, at both the JSON-value level and the text level,
because `expressionFromJSON` drops the resolver argument when dispatching to
the leaf decoders.  With the resolver threaded through as the specification
intends (`decodeExpression` / `decodeExpressionText`), the round-trip does
hold for every tree whose field names the resolver maps back to themselves,
at both levels. -/
theorem C1_roundtrip :
    expressionFromJSON (expressionAsJSON sampleExists) = .error .arityError ∧
    expressionFromJSONText (expressionAsJSONText sampleExists) =
      .error .arityError ∧
    (∀ (service : Service) (e : Expression), wfE service e →
      decodeExpression service (expressionAsJSON e) = .ok e) ∧
    (∀ (service : Service) (e : Expression), wfE service e →
      decodeExpressionText service (expressionAsJSONText e) = .ok e) := by
  refine ⟨?_, ?_, decodeExpression_encode, decodeText_encodeText⟩
  · simp [sampleExists, expressionAsJSON, existsExpressionAsJSON,
      expressionFromJSON, JSONObject.lookup]
  · have h : from_json_text (expressionAsJSONText sampleExists) =
        .ok (expressionAsJSON sampleExists) := rfl
    simp only [expressionFromJSONText, h]
    simp [sampleExists, expressionAsJSON, existsExpressionAsJSON,
      expressionFromJSON, JSONObject.lookup]

/-- Witness for C1's round-trip halves at the sample resolver and the sample
tree exercising all four variants, nesting, flag combinations and a field
value containing a comma. -/
theorem C1_roundtrip_witness :
    decodeExpression sampleService (expressionAsJSON sampleTree) =
      .ok sampleTree ∧
    decodeExpressionText sampleService (expressionAsJSONText sampleTree) =
      .ok sampleTree :=
  ⟨C1_roundtrip.2.2.1 sampleService sampleTree
      (by simp [sampleTree, wfE, wfL, sampleService]),
    C1_roundtrip.2.2.2 sampleService sampleTree
      (by simp [sampleTree, wfE, wfL, sampleService])⟩

/-- C5: the fixed per-node check order of required keys is real in the leaf
and compound decoders — `field` before `value` for a match expression,
`expressions` before `operand` for a compound expression, `field` for
exists/boolean — but the two match-expression examples of the claim, run
through the public `expressionFromJSON`, fail with the arity `TypeError`
instead of `MissingField`, because the dispatcher drops the resolver
argument. -/
theorem C5_missing_key_order :
    (∀ (service : Service) (o : JSONObject), o.lookup "field" = none →
      matchExpressionFromJSON service o = .error (.missingField "field")) ∧
    (∀ (service : Service) (o : JSONObject) (jf : JSONValue),
      o.lookup "field" = some jf → o.lookup "value" = none →
      matchExpressionFromJSON service o = .error (.missingField "value")) ∧
    (∀ o : JSONObject, o.lookup "type" = some (.str "CompoundExpression") →
      o.lookup "expressions" = none →
      expressionFromJSON (.obj o) = .error (.missingField "expressions")) ∧
    (∀ (o : JSONObject) (ej : JSONValue),
      o.lookup "type" = some (.str "CompoundExpression") →
      o.lookup "expressions" = some ej → o.lookup "operand" = none →
      expressionFromJSON (.obj o) = .error (.missingField "operand")) ∧
    (∀ (service : Service) (o : JSONObject), o.lookup "field" = none →
      existsExpressionFromJSON service o = .error (.missingField "field")) ∧
    (∀ (service : Service) (o : JSONObject), o.lookup "field" = none →
      booleanExpressionFromJSON service o = .error (.missingField "field")) ∧
    expressionFromJSON (.obj (.cons "type" (.str "MatchExpression") .nil)) =
      .error .arityError ∧
    expressionFromJSON (.obj (.cons "type" (.str "MatchExpression")
      (.cons "field" (.str "x") .nil))) = .error .arityError := by
  refine ⟨?_, ?_, ?_, ?_, ?_, ?_, ?_, ?_⟩
  · intro service o h
    simp [matchExpressionFromJSON, h]
  · intro service o jf hf hv
    simp [matchExpressionFromJSON, hf, hv]
  · intro o ht h
    simp only [expressionFromJSON, ht]
    simp only [compoundExpressionFromJSON]
    split <;> simp_all
  · intro o ej ht he h
    simp only [expressionFromJSON, ht]
    simp only [compoundExpressionFromJSON]
    split <;> simp_all
  · intro service o h
    simp [existsExpressionFromJSON, h]
  · intro service o h
    simp [booleanExpressionFromJSON, h]
  · simp [expressionFromJSON, JSONObject.lookup]
  · simp [expressionFromJSON, JSONObject.lookup]

/-- Witness for C5's quantified parts at concrete objects. -/
theorem C5_missing_key_order_witness :
    matchExpressionFromJSON sampleService .nil = .error (.missingField "field") ∧
    matchExpressionFromJSON sampleService (.cons "field" (.str "x") .nil) =
      .error (.missingField "value") ∧
    expressionFromJSON (.obj (.cons "type" (.str "CompoundExpression") .nil)) =
      .error (.missingField "expressions") ∧
    expressionFromJSON (.obj (.cons "type" (.str "CompoundExpression")
      (.cons "expressions" (.arr .nil) .nil))) =
      .error (.missingField "operand") ∧
    existsExpressionFromJSON sampleService .nil = .error (.missingField "field") ∧
    booleanExpressionFromJSON sampleService .nil = .error (.missingField "field") :=
  ⟨C5_missing_key_order.1 sampleService .nil rfl,
    C5_missing_key_order.2.1 sampleService _ (.str "x") rfl rfl,
    C5_missing_key_order.2.2.1 _ rfl rfl,
    C5_missing_key_order.2.2.2.1 _ (.arr .nil) rfl rfl rfl,
    C5_missing_key_order.2.2.2.2.1 sampleService .nil rfl,
    C5_missing_key_order.2.2.2.2.2.1 sampleService .nil rfl⟩
